import Mathlib

/-!
Verification of the quiz-chain solver core (solver.py, llm_client.py, config.py).

The development shallowly embeds the chain controller, the submission-endpoint
resolver, the answer-solving strategy and the submission client.  External
effects (browser rendering, the LLM oracle, HTTP) are modelled as explicit
parameters; machine strings are `String`/`List Char`; wall-clock time is `ℚ`.
Python regular-expression search is embedded by a small backtracking matcher
with Python's leftmost, lazy/greedy backtracking semantics, specialised to the
patterns occurring in the source.
-/

namespace QuizChain

/-- ASCII whitespace: the regex class backslash-s and Python str.strip,
restricted to ASCII (the texts in play are ASCII). -/
def isWS (c : Char) : Bool :=
  c = ' ' || c = '\t' || c = '\n' || c = '\r' || c = '\x0b' || c = '\x0c'

/-- Complement class, the regex character class of non-whitespace. -/
def nonWS (c : Char) : Bool := !isWS c

/-- Character class of the regex metacharacter dot: anything but newline. -/
def isDotCh (c : Char) : Bool := c != '\n'

/-- Character class of the findall URL pattern: not whitespace and none of
the three delimiter characters. -/
def urlCh (c : Char) : Bool := !isWS c && c != '<' && c != '>' && c != '"'

/-- Regular-expression abstract syntax, specialised to the constructs used by
solver.py: literals (case-sensitive and case-insensitive), sequencing,
alternation, greedy option, and lazy/greedy repetition of a single-character
class (every star/plus in the source patterns has a one-character body). -/
inductive RE where
  | eps : RE
  | lit : Char → RE
  | litCI : Char → RE
  | seq : RE → RE → RE
  | alt : RE → RE → RE
  | opt : RE → RE
  | starL : (Char → Bool) → RE
  | starG : (Char → Bool) → RE
  | plusG : (Char → Bool) → RE

/-- Lazy iteration of a one-character class: prefer consuming as few
characters as possible before running the continuation. -/
def lazyIter (p : Char → Bool) (s : List Char) (k : List Char → Option (List Char)) :
    Option (List Char) :=
  match k s with
  | some v => some v
  | none =>
    match s with
    | [] => none
    | x :: s' => if p x then lazyIter p s' k else none

/-- Greedy iteration of a one-character class: prefer consuming as many
characters as possible, backtracking one character at a time. -/
def greedyIter (p : Char → Bool) (s : List Char) (k : List Char → Option (List Char)) :
    Option (List Char) :=
  match s with
  | [] => k []
  | x :: s' =>
    if p x then
      match greedyIter p s' k with
      | some v => some v
      | none => k (x :: s')
    else k (x :: s')

/-- Backtracking matcher in continuation style.  `mmatch r s k` tries to match
`r` against a prefix of `s` and feeds the remaining suffix to `k`, exploring
alternatives in Python's backtracking priority order and returning the first
success. -/
def mmatch : RE → List Char → (List Char → Option (List Char)) → Option (List Char)
  | .eps, s, k => k s
  | .lit c, s, k =>
    match s with
    | [] => none
    | x :: s' => if x = c then k s' else none
  | .litCI c, s, k =>
    match s with
    | [] => none
    | x :: s' => if x.toLower = c.toLower then k s' else none
  | .seq a b, s, k => mmatch a s (fun s' => mmatch b s' k)
  | .alt a b, s, k =>
    match mmatch a s k with
    | some v => some v
    | none => mmatch b s k
  | .opt a, s, k =>
    match mmatch a s k with
    | some v => some v
    | none => k s
  | .starL p, s, k => lazyIter p s k
  | .starG p, s, k => greedyIter p s k
  | .plusG p, s, k =>
    match s with
    | [] => none
    | x :: s' => if p x then greedyIter p s' k else none

/-- Anchored search of a pattern split as prefix part plus a final capturing
group: returns the text captured by the group, chosen by backtracking
priority, when the whole pattern matches starting exactly at `s`. -/
def searchGroupAt (pre grp : RE) (s : List Char) : Option (List Char) :=
  mmatch pre s
    (fun s1 => (mmatch grp s1 Option.some).map (fun s2 => s1.take (s1.length - s2.length)))

/-- Embedding of re.search group extraction: try every start position from the
left, returning the group captured at the leftmost position where the pattern
matches (Python's leftmost-match rule). -/
def searchGroup (pre grp : RE) : List Char → Option (List Char)
  | [] => searchGroupAt pre grp []
  | x :: rest =>
    match searchGroupAt pre grp (x :: rest) with
    | some cap => some cap
    | none => searchGroup pre grp rest

/-- Anchored whole-pattern match: the matched text together with the suffix
following it. -/
def searchWholeAt (r : RE) (s : List Char) : Option (List Char × List Char) :=
  (mmatch r s Option.some).map (fun s2 => (s.take (s.length - s2.length), s2))

/-- Leftmost whole-pattern search, as used by re.findall to locate each
successive match. -/
def searchWhole (r : RE) : List Char → Option (List Char × List Char)
  | [] => searchWholeAt r []
  | x :: rest =>
    match searchWholeAt r (x :: rest) with
    | some m => some m
    | none => searchWhole r rest

/-- Fuelled loop of re.findall: repeatedly take the leftmost match and
continue after its end (the fuel is an upper bound on the number of matches;
every pattern used here consumes at least one character per match). -/
def findAllAux (r : RE) : Nat → List Char → List (List Char)
  | 0, _ => []
  | fuel + 1, s =>
    match searchWhole r s with
    | none => []
    | some (m, rest) => m :: findAllAux r fuel rest

/-- Embedding of re.findall for a groupless pattern. -/
def findAll (r : RE) (s : List Char) : List (List Char) := findAllAux r (s.length + 1) s

/-- Sequence of case-sensitive literals. -/
def rlit (l : List Char) : RE := l.foldr (fun c r => RE.seq (RE.lit c) r) RE.eps

/-- Sequence of case-insensitive literals. -/
def rlitCI (l : List Char) : RE := l.foldr (fun c r => RE.seq (RE.litCI c) r) RE.eps

/-- Prefix part of pattern POST dot-star-lazy to backslash-s-plus, compiled
with IGNORECASE (solver.py line 115). -/
def p1pre : RE :=
  .seq (rlitCI "post".data) (.seq (.starL isDotCh) (.seq (rlitCI "to".data) (.plusG isWS)))

/-- Capturing group https?://nonspace-plus shared by patterns 1 and 3,
compiled with IGNORECASE. -/
def urlGrp : RE :=
  .seq (.litCI 'h') (.seq (rlitCI "ttp".data)
    (.seq (.opt (.litCI 's')) (.seq (rlitCI "://".data) (.plusG nonWS))))

/-- Prefix part of pattern submit dot-star-lazy (solver.py line 116). -/
def p2pre : RE := .seq (rlitCI "submit".data) (.starL isDotCh)

/-- Capturing group https?://nonspace-plus submit nonspace-star of the second
pattern. -/
def p2grp : RE :=
  .seq (.litCI 'h') (.seq (rlitCI "ttp".data)
    (.seq (.opt (.litCI 's')) (.seq (rlitCI "://".data)
      (.seq (.plusG nonWS) (.seq (rlitCI "submit".data) (.starG nonWS))))))

/-- Prefix part of the bare pattern POST dot-star-lazy (solver.py line 117). -/
def p3pre : RE := .seq (rlitCI "post".data) (.starL isDotCh)

/-- The findall URL pattern https?://[^whitespace, angle brackets, quote]+
(solver.py line 127, case-sensitive: no IGNORECASE flag there). -/
def findallRE : RE :=
  .seq (.lit 'h') (.seq (rlit "ttp".data)
    (.seq (.opt (.lit 's')) (.seq (rlit "://".data) (.plusG urlCh))))

/-- Prefix part of the relative-path pattern (POST or submit) dot-star-lazy
to backslash-s-plus (solver.py line 133). -/
def relPre : RE :=
  .seq (.alt (rlitCI "post".data) (rlitCI "submit".data))
    (.seq (.starL isDotCh) (.seq (rlitCI "to".data) (.plusG isWS)))

/-- Capturing group slash nonspace-plus of the relative-path pattern. -/
def relGrp : RE := .seq (.lit '/') (.plusG nonWS)

/-- The four punctuation characters trimmed by rstrip in solver.py. -/
def punct (c : Char) : Bool := c = '.' || c = ',' || c = ';' || c = ':'

/-- Embedding of Python str.rstrip with the character set period, comma,
semicolon, colon. -/
def rstripPunct (l : List Char) : List Char := (l.reverse.dropWhile punct).reverse

/-- Boolean list-prefix test (b starts with a). -/
def listStartsWith : List Char → List Char → Bool
  | [], _ => true
  | _ :: _, [] => false
  | x :: xs, y :: ys => if x = y then listStartsWith xs ys else false

/-- Boolean contiguous-sublist test: Python's `in` on strings. -/
def containsSub : List Char → List Char → Bool
  | sub, [] => sub.isEmpty
  | sub, x :: rest => listStartsWith sub (x :: rest) || containsSub sub rest

/-- Scheme recogniser of urllib: one ASCII letter followed by letters, digits,
plus, minus or period, then a colon. -/
def schemeRest : List Char → Bool
  | [] => false
  | c :: rest =>
    if c = ':' then true
    else if c.isAlphanum || c = '+' || c = '-' || c = '.' then schemeRest rest
    else false

/-- Whether a reference carries its own URL scheme. -/
def hasScheme (r : List Char) : Bool :=
  match r with
  | [] => false
  | c :: rest => c.isAlpha && schemeRest rest

/-- Split a URL at the first scheme separator: `splitScheme b = some (sch, rest)`
when `b` is `sch` ++ colon-slash-slash ++ `rest`. -/
def splitScheme : List Char → Option (List Char × List Char)
  | ':' :: '/' :: '/' :: rest => some ([], rest)
  | c :: rest => (splitScheme rest).map (fun p => (c :: p.1, p.2))
  | [] => none

/-- Split the part after the scheme separator into authority and path (the
path begins at the first slash). -/
def splitAuthPath : List Char → List Char × List Char
  | [] => ([], [])
  | '/' :: rest => ([], '/' :: rest)
  | c :: rest =>
    let p := splitAuthPath rest
    (c :: p.1, p.2)

/-- Directory part of a path: everything up to and including the last slash;
an empty or slash-free path contributes a single slash, as urllib does when
merging a relative reference onto a base with that path. -/
def dirOf (p : List Char) : List Char :=
  let d := (p.reverse.dropWhile (fun c => c != '/')).reverse
  if d = [] then ['/'] else d

/-- Model of urllib.parse.urljoin restricted to how solver.py uses it:
hierarchical http(s)-style bases, and references that are either
scheme-qualified, network-path (double slash), path-absolute (single slash)
or plain relative; query strings, fragments and dot segments do not occur. -/
def urljoinL (base ref : List Char) : List Char :=
  if ref = [] then base
  else if hasScheme ref then ref
  else
    match splitScheme base with
    | none => ref
    | some (sch, rest) =>
      if ref.take 2 = ['/', '/'] then (sch ++ [':']) ++ ref
      else if ref.take 1 = ['/'] then
        (sch ++ ':' :: '/' :: '/' :: (splitAuthPath rest).1) ++ ref
      else
        (sch ++ ':' :: '/' :: '/' :: (splitAuthPath rest).1 ++ dirOf (splitAuthPath rest).2) ++ ref

/-- String wrapper of the urljoin model. -/
def urljoin (base ref : String) : String := String.mk (urljoinL base.data ref.data)

/-- Structured analysis returned by LLMClient.analyze_question, restricted to
the two fields the solver reads: task_type (read but unused by
solve_question) and submit_url (the submission-URL hint).  A missing key is
`none`; a JSON null value behaves like a missing key, as both are falsy. -/
structure Analysis where
  task_type : Option String
  submit_url : Option String

/-- The three compiled text patterns, in the order of the `patterns` list of
solver.py (lines 114-118), each as prefix part plus capturing group. -/
def patterns : List (RE × RE) := [(p1pre, urlGrp), (p2pre, p2grp), (p3pre, urlGrp)]

/-- The `for pattern in patterns` loop of solver.py (lines 120-124): first
pattern that matches wins, and its captured group is rstrip-trimmed. -/
def tryPatterns : List (RE × RE) → List Char → Option (List Char)
  | [], _ => none
  | (pre, grp) :: rest, s =>
    match searchGroup pre grp s with
    | some cap => some (rstripPunct cap)
    | none => tryPatterns rest s

/-- The findall scan of solver.py (lines 127-130): first URL whose lowercase
form contains the substring submit. -/
def firstSubmitUrl : List (List Char) → Option (List Char)
  | [] => none
  | u :: rest =>
    if containsSub "submit".data (u.map Char.toLower) then some u
    else firstSubmitUrl rest

/-- The text-mining part of QuizSolver.extract_submit_url (solver.py lines
112-138): the three-pattern loop, then the findall scan (rstrip-trimmed at
return), then the relative-path search resolved against the current URL. -/
def extractFromText (question_text current_url : String) : Option String :=
  match tryPatterns patterns question_text.data with
  | some u => some (String.mk u)
  | none =>
    match firstSubmitUrl (findAll findallRE question_text.data) with
    | some u => some (String.mk (rstripPunct u))
    | none =>
      match searchGroup relPre relGrp question_text.data with
      | some rel => some (urljoin current_url (String.mk (rstripPunct rel)))
      | none => none

/-- Shallow embedding of QuizSolver.extract_submit_url (solver.py lines
101-138).  The hint is used when the key is present and truthy (non-empty);
a hint starting with "http" is returned verbatim, any other hint is resolved
with urljoin against the current URL; otherwise the text strategies run. -/
def extract_submit_url (question_text : String) (analysis : Analysis)
    (current_url : String) : Option String :=
  match analysis.submit_url with
  | some su =>
    if su = "" then extractFromText question_text current_url
    else if listStartsWith "http".data su.data then some su
    else some (urljoin current_url su)
  | none => extractFromText question_text current_url

/-- Strategy 1 of the spec's priority list: the analysis hint, when present
and truthy; verbatim when it starts with http, otherwise resolved against the
current URL. -/
def hintStrategy (analysis : Analysis) (current_url : String) : Option String :=
  match analysis.submit_url with
  | some su =>
    if su = "" then none
    else if listStartsWith "http".data su.data then some su
    else some (urljoin current_url su)
  | none => none

/-- Strategy 2: the POST-to text pattern, punctuation-trimmed. -/
def postToStrategy (t : String) : Option String :=
  (searchGroup p1pre urlGrp t.data).map (fun m => String.mk (rstripPunct m))

/-- Strategy 3: the submit-then-URL-containing-submit pattern,
punctuation-trimmed. -/
def submitUrlStrategy (t : String) : Option String :=
  (searchGroup p2pre p2grp t.data).map (fun m => String.mk (rstripPunct m))

/-- Strategy 4: the bare POST-then-URL pattern, punctuation-trimmed. -/
def barePostStrategy (t : String) : Option String :=
  (searchGroup p3pre urlGrp t.data).map (fun m => String.mk (rstripPunct m))

/-- Strategy 5: the first absolute URL in the text whose lowercase form
contains submit, punctuation-trimmed. -/
def submitScanStrategy (t : String) : Option String :=
  (firstSubmitUrl (findAll findallRE t.data)).map (fun m => String.mk (rstripPunct m))

/-- Strategy 6: the relative-path instruction, punctuation-trimmed and
resolved against the current URL. -/
def relPathStrategy (t current_url : String) : Option String :=
  (searchGroup relPre relGrp t.data).map
    (fun m => urljoin current_url (String.mk (rstripPunct m)))

/-- The spec's resolver contract (section 4.3): evaluate the six strategies
in the fixed priority order, the first match wins, absent when none matches.
This definition follows the spec's numbered list and is proved equal to
extract_submit_url. -/
def resolvePriority (t : String) (analysis : Analysis) (current_url : String) :
    Option String :=
  match hintStrategy analysis current_url with
  | some u => some u
  | none =>
    match postToStrategy t with
    | some u => some u
    | none =>
      match submitUrlStrategy t with
      | some u => some u
      | none =>
        match barePostStrategy t with
        | some u => some u
        | none =>
          match submitScanStrategy t with
          | some u => some u
          | none =>
            match relPathStrategy t current_url with
            | some u => some u
            | none => none

/-- Formalisation of the spec's notion of an absolute URL: a URL carrying an
explicit http or https scheme. -/
def isAbsoluteUrl (s : String) : Bool :=
  listStartsWith "http://".data s.data || listStartsWith "https://".data s.data

/-- Embedding of Python str.strip (surrounding-whitespace removal, ASCII). -/
def pyStrip (s : List Char) : List Char :=
  ((s.dropWhile isWS).reverse.dropWhile isWS).reverse

/-- Digit-string value in base ten. -/
def natOfDigits (ds : List Char) : Nat :=
  ds.foldl (fun acc c => acc * 10 + (c.toNat - '0'.toNat)) 0

/-- Value of a non-empty all-digit string, `none` otherwise. -/
def digitsVal : List Char → Option Nat
  | [] => none
  | ds => if ds.all Char.isDigit then some (natOfDigits ds) else none

/-- Model of Python int(str): surrounding whitespace stripped, an optional
sign, then decimal digits (digit-group underscores are not modelled; none of
the strings in play contain them). -/
def intParse : List Char → Option Int
  | s =>
    match pyStrip s with
    | '+' :: ds => (digitsVal ds).map (fun n => (n : Int))
    | '-' :: ds => (digitsVal ds).map (fun n => -(n : Int))
    | ds => (digitsVal ds).map (fun n => (n : Int))

/-- Value space of Python float(str) in the model: the finite values carry the
exact decimal rational (IEEE-754 rounding is abstracted away), plus the two
non-finite families. -/
inductive FloatVal where
  | finite : ℚ → FloatVal
  | infVal : Bool → FloatVal
  | nanVal : FloatVal
deriving DecidableEq

/-- Exponent suffix of a float literal: empty, or e/E with optional sign and
digits; anything else rejects the whole literal. -/
def parseExp : List Char → Option Int
  | [] => some 0
  | c :: r =>
    if c = 'e' ∨ c = 'E' then
      match r with
      | '+' :: ds => (digitsVal ds).map (fun n => (n : Int))
      | '-' :: ds => (digitsVal ds).map (fun n => -(n : Int))
      | ds => (digitsVal ds).map (fun n => (n : Int))
    else none

/-- Rational power of ten with a natural exponent, written recursively so
that it evaluates by kernel reduction. -/
def tenPowN : Nat → ℚ
  | 0 => 1
  | n + 1 => 10 * tenPowN n

/-- Rational power of ten with an integer exponent. -/
def tenPowZ (e : Int) : ℚ :=
  if e < 0 then 1 / tenPowN e.natAbs else tenPowN e.natAbs

/-- Shape analysis of the unsigned decimal part of a float literal: digits
with an optional fractional part, or a leading period with digits, then the
exponent; on success returns the integer-part value, the fractional-part
value, the fractional-part length and the exponent. -/
def parseDecimalParts (u : List Char) : Option (Nat × Nat × Nat × Int) :=
  let ip := u.takeWhile Char.isDigit
  let rest1 := u.dropWhile Char.isDigit
  match rest1 with
  | '.' :: rest2 =>
    let fp := rest2.takeWhile Char.isDigit
    let rest3 := rest2.dropWhile Char.isDigit
    if ip = [] ∧ fp = [] then none
    else (parseExp rest3).map (fun e => (natOfDigits ip, natOfDigits fp, fp.length, e))
  | _ =>
    if ip = [] then none
    else (parseExp rest1).map (fun e => (natOfDigits ip, 0, 0, e))

/-- Exact rational value of a parsed decimal literal. -/
def decimalValue (ip fp : Nat) (fpLen : Nat) (e : Int) : ℚ :=
  ((ip : ℚ) + (fp : ℚ) / tenPowN fpLen) * tenPowZ e

/-- Unsigned decimal part of a float literal as a rational. -/
def parseDecimal (u : List Char) : Option ℚ :=
  (parseDecimalParts u).map (fun x => decimalValue x.1 x.2.1 x.2.2.1 x.2.2.2)

/-- Model of Python float(str): strip, optional sign, then a decimal literal
or one of the case-insensitive words inf, infinity, nan. -/
def floatParse (s : List Char) : Option FloatVal :=
  let t := pyStrip s
  let su :=
    match t with
    | '+' :: r => (false, r)
    | '-' :: r => (true, r)
    | r => (false, r)
  let low := su.2.map Char.toLower
  if low = "inf".data ∨ low = "infinity".data then some (.infVal su.1)
  else if low = "nan".data then some .nanVal
  else (parseDecimal su.2).map (fun q => .finite (if su.1 then -q else q))

/-- Loosely-typed answer value: integer, floating point or raw string. -/
inductive Answer where
  | int : Int → Answer
  | float : FloatVal → Answer
  | str : String → Answer
deriving DecidableEq

/-- The coercion of LLMClient.solve_question_direct (llm_client.py lines
150-157): try int(), then float(), fall back to the raw string. -/
def coerceAnswer (s : String) : Answer :=
  match intParse s.data with
  | some z => .int z
  | none =>
    match floatParse s.data with
    | some v => .float v
    | none => .str s

/-- Embedding of LLMClient.solve_question_direct: the oracle reply is a
parameter; on success the reply text is stripped and coerced, an oracle
failure propagates. -/
def solve_question_direct (oracleReply : Except String String) : Except String Answer :=
  match oracleReply with
  | .error e => .error e
  | .ok t => .ok (coerceAnswer (String.mk (pyStrip t.data)))

/-- Embedding of QuizSolver.solve_question (solver.py lines 140-171).  The
task_type field of the analysis is read but not used to branch.  The primary
direct attempt and the code-generation oracle call are parameters; when the
primary attempt fails the generated code is logged but never executed and the
sentinel answer is returned; when the fallback oracle call also fails its
error is re-raised. -/
def solve_question (_analysis : Analysis) (direct : Except String Answer)
    (genCode : Except String String) : Except String Answer :=
  match direct with
  | .ok a => .ok a
  | .error _ =>
    match genCode with
    | .ok _code => .ok (Answer.str "Unable to solve automatically")
    | .error e2 => .error e2

/-- Whether an Except value is an error (a raised Python exception in the
model). -/
def isErr {α : Type} (x : Except String α) : Bool :=
  match x with
  | .error _ => true
  | .ok _ => false

/-- Parsed JSON body of a submission response; each field may be missing and
solver.py reads it with dict.get defaults (correct false, reason empty,
url None). -/
structure SubmissionBody where
  correct : Option Bool
  reason : Option String
  url : Option String
deriving DecidableEq

/-- HTTP response to the submission POST: status code, and the body when it
parses as a JSON object (`none` models a json() failure). -/
structure HResponse where
  status : Nat
  body : Option SubmissionBody
deriving DecidableEq

/-- Embedding of QuizSolver.submit_answer (solver.py lines 173-213).  The
network outcome is a parameter: `none` is a network error.  raise_for_status
raises on any non-2xx status (httpx success range 200-299) and the handler
returns None; a JSON failure is caught by the generic handler; on a 2xx
response the correct and reason fields are only logged and the url field is
returned as the next URL. -/
def submit_answer (netResult : Option HResponse) : Option String :=
  match netResult with
  | none => none
  | some r =>
    if 200 ≤ r.status ∧ r.status < 300 then
      match r.body with
      | none => none
      | some b => b.url
    else none

/-- Embedding of QuizSolver.solve_single_quiz (solver.py lines 68-99).  The
renderer result, the analyzer, the two oracle calls and the network are
parameters.  A missing submit URL returns `ok none` (graceful absent); every
lower-layer failure propagates as an error. -/
def solve_single_quiz (fetched : Except String String)
    (analyze : String → Except String Analysis)
    (oracleReply : Except String String) (genCode : Except String String)
    (net : String → Answer → Option HResponse) (quiz_url : String) :
    Except String (Option String) :=
  match fetched with
  | .error e => .error e
  | .ok question_text =>
    match analyze question_text with
    | .error e => .error e
    | .ok analysis =>
      match extract_submit_url question_text analysis quiz_url with
      | none => .ok none
      | some submit_url =>
        match solve_question analysis (solve_question_direct oracleReply) genCode with
        | .error e => .error e
        | .ok answer => .ok (submit_answer (net submit_url answer))

/-- Configured total timeout in seconds (config.py: TIMEOUT_SECONDS = 180). -/
def TIMEOUT_SECONDS : ℚ := 180

/-- Embedding of QuizSolver.time_remaining (solver.py lines 24-29): before
the chain starts the full budget remains; afterwards the remainder is always
recomputed from the immutable start timestamp and the current clock. -/
def time_remaining (T : ℚ) (start : Option ℚ) (now : ℚ) : ℚ :=
  match start with
  | none => T
  | some s => T - (now - s)

/-- Outcome of one iteration of the chain loop: solve_single_quiz returned a
next URL or None, or raised. -/
inductive QuizOutcome where
  | result : Option String → QuizOutcome
  | exn : QuizOutcome

/-- Embedding of the while loop of QuizSolver.solve_chain (solver.py lines
41-61).  `env` supplies, per question, its wall-clock latency and its
outcome; the returned list collects the timestamp at which each iteration
began.  The guard requires a truthy current URL and more than ten seconds
remaining; an exception or a falsy next URL ends the loop. -/
def solve_chain_loop (T s : ℚ) (now : ℚ) (env : List (ℚ × QuizOutcome))
    (current_url : String) : List ℚ :=
  match env with
  | [] => []
  | (lat, out) :: rest =>
    if current_url ≠ "" ∧ time_remaining T (some s) now > 10 then
      now ::
        (match out with
         | .result (some u) =>
           if u ≠ "" then solve_chain_loop T s (now + lat) rest u else []
         | .result none => []
         | .exn => [])
    else []

/-- Embedding of QuizSolver.solve_chain (solver.py lines 31-66): the start
timestamp is recorded once at entry and the loop begins at that instant. -/
def solve_chain (T start : ℚ) (env : List (ℚ × QuizOutcome)) (start_url : String) :
    List ℚ :=
  solve_chain_loop T start start env start_url

/-! Helper lemmas about the matcher and the trimming function. -/

theorem lazyIter_bound (p : Char → Bool) :
    ∀ (s : List Char) (k : List Char → Option (List Char)) (v : List Char),
      lazyIter p s k = some v → ∃ s1, s1.length ≤ s.length ∧ k s1 = some v := by
  intro s
  induction s with
  | nil =>
    intro k v h
    rw [lazyIter] at h
    cases hk : k [] with
    | none => rw [hk] at h; simp at h
    | some w => rw [hk] at h; exact ⟨[], Nat.le_refl _, by simpa using hk.trans h⟩
  | cons x s' ih =>
    intro k v h
    rw [lazyIter] at h
    cases hk : k (x :: s') with
    | some w =>
      rw [hk] at h
      exact ⟨x :: s', Nat.le_refl _, by simpa using hk.trans h⟩
    | none =>
      rw [hk] at h
      by_cases hp : p x
      · rw [if_pos hp] at h
        obtain ⟨s1, hl, hks⟩ := ih k v h
        exact ⟨s1, Nat.le_succ_of_le hl, hks⟩
      · rw [if_neg hp] at h; simp at h

theorem greedyIter_bound (p : Char → Bool) :
    ∀ (s : List Char) (k : List Char → Option (List Char)) (v : List Char),
      greedyIter p s k = some v → ∃ s1, s1.length ≤ s.length ∧ k s1 = some v := by
  intro s
  induction s with
  | nil =>
    intro k v h
    rw [greedyIter] at h
    exact ⟨[], Nat.le_refl _, h⟩
  | cons x s' ih =>
    intro k v h
    rw [greedyIter] at h
    by_cases hp : p x
    · rw [if_pos hp] at h
      cases hg : greedyIter p s' k with
      | some w =>
        rw [hg] at h
        obtain ⟨s1, hl, hks⟩ := ih k v (hg.trans h)
        exact ⟨s1, Nat.le_succ_of_le hl, hks⟩
      | none =>
        rw [hg] at h
        exact ⟨x :: s', Nat.le_refl _, h⟩
    · rw [if_neg hp] at h
      exact ⟨x :: s', Nat.le_refl _, h⟩

theorem mmatch_bound :
    ∀ (re : RE) (s : List Char) (k : List Char → Option (List Char)) (v : List Char),
      mmatch re s k = some v → ∃ s1, s1.length ≤ s.length ∧ k s1 = some v := by
  intro re
  induction re with
  | eps =>
    intro s k v h
    exact ⟨s, Nat.le_refl _, h⟩
  | lit c =>
    intro s k v h
    cases s with
    | nil => rw [mmatch] at h; simp at h
    | cons x s' =>
      rw [mmatch] at h
      by_cases hx : x = c
      · rw [if_pos hx] at h; exact ⟨s', Nat.le_succ _, h⟩
      · rw [if_neg hx] at h; simp at h
  | litCI c =>
    intro s k v h
    cases s with
    | nil => rw [mmatch] at h; simp at h
    | cons x s' =>
      rw [mmatch] at h
      by_cases hx : x.toLower = c.toLower
      · rw [if_pos hx] at h; exact ⟨s', Nat.le_succ _, h⟩
      · rw [if_neg hx] at h; simp at h
  | seq a b iha ihb =>
    intro s k v h
    rw [mmatch] at h
    obtain ⟨s1, h1, h2⟩ := iha s _ v h
    obtain ⟨s2, h3, h4⟩ := ihb s1 k v h2
    exact ⟨s2, Nat.le_trans h3 h1, h4⟩
  | alt a b iha ihb =>
    intro s k v h
    rw [mmatch] at h
    cases ha : mmatch a s k with
    | some w => rw [ha] at h; exact iha s k v (ha.trans h)
    | none => rw [ha] at h; exact ihb s k v h
  | opt a iha =>
    intro s k v h
    rw [mmatch] at h
    cases ha : mmatch a s k with
    | some w => rw [ha] at h; exact iha s k v (ha.trans h)
    | none => rw [ha] at h; exact ⟨s, Nat.le_refl _, h⟩
  | starL p =>
    intro s k v h
    rw [mmatch] at h
    exact lazyIter_bound p s k v h
  | starG p =>
    intro s k v h
    rw [mmatch] at h
    exact greedyIter_bound p s k v h
  | plusG p =>
    intro s k v h
    cases s with
    | nil => rw [mmatch] at h; simp at h
    | cons x s' =>
      rw [mmatch] at h
      by_cases hp : p x
      · rw [if_pos hp] at h
        obtain ⟨s1, hl, hks⟩ := greedyIter_bound p s' k v h
        exact ⟨s1, Nat.le_succ_of_le hl, hks⟩
      · rw [if_neg hp] at h; simp at h

theorem searchGroupAt_lit_head (pre r : RE) (ch : Char) (s cap : List Char)
    (h : searchGroupAt pre (.seq (.lit ch) r) s = some cap) : ∃ t, cap = ch :: t := by
  unfold searchGroupAt at h
  obtain ⟨s1, _, hk⟩ := mmatch_bound _ _ _ _ h
  rcases Option.map_eq_some'.mp hk with ⟨s2, hm, hcap⟩
  rw [mmatch] at hm
  cases s1 with
  | nil => rw [mmatch] at hm; simp at hm
  | cons x s1' =>
    rw [mmatch] at hm
    by_cases hx : x = ch
    · rw [if_pos hx] at hm
      obtain ⟨s3, hl3, hs3⟩ := mmatch_bound r s1' Option.some s2 hm
      have hs2 : s2 = s3 := by simpa using hs3.symm
      subst hs2 hx
      have hn : (x :: s1').length - s2.length = (s1'.length - s2.length) + 1 := by
        simp only [List.length_cons]
        omega
      rw [hn, List.take_succ_cons] at hcap
      exact ⟨_, hcap.symm⟩
    · rw [if_neg hx] at hm; simp at hm

theorem searchGroup_lit_head (pre r : RE) (ch : Char) :
    ∀ (s cap : List Char), searchGroup pre (.seq (.lit ch) r) s = some cap →
      ∃ t, cap = ch :: t := by
  intro s
  induction s with
  | nil =>
    intro cap h
    rw [searchGroup] at h
    exact searchGroupAt_lit_head _ _ _ _ _ h
  | cons x rest ih =>
    intro cap h
    rw [searchGroup] at h
    cases hAt : searchGroupAt pre (.seq (.lit ch) r) (x :: rest) with
    | some c2 =>
      rw [hAt] at h
      exact searchGroupAt_lit_head _ _ _ _ _ (hAt.trans h)
    | none =>
      rw [hAt] at h
      exact ih cap h

theorem head?_dropWhile_false (p : Char → Bool) :
    ∀ (l : List Char) (c : Char), (l.dropWhile p).head? = some c → p c = false := by
  intro l
  induction l with
  | nil => intro c h; simp [List.dropWhile] at h
  | cons x t ih =>
    intro c h
    rw [List.dropWhile_cons] at h
    by_cases hx : p x
    · rw [if_pos hx] at h; exact ih c h
    · rw [if_neg hx] at h
      simp only [List.head?_cons, Option.some.injEq] at h
      subst h
      simpa using hx

theorem rstrip_last (l : List Char) (c : Char)
    (h : (rstripPunct l).getLast? = some c) : punct c = false := by
  unfold rstripPunct at h
  rw [List.getLast?_reverse] at h
  exact head?_dropWhile_false punct _ c h

theorem rstrip_cons_head (x : Char) (t : List Char) (hx : punct x = false) :
    ∃ r, rstripPunct (x :: t) = x :: r := by
  unfold rstripPunct
  rw [List.reverse_cons, List.dropWhile_append]
  by_cases he : (List.dropWhile punct t.reverse).isEmpty
  · rw [if_pos he]
    refine ⟨[], ?_⟩
    rw [List.dropWhile_cons]
    simp [hx, List.dropWhile]
  · rw [if_neg he]
    exact ⟨(List.dropWhile punct t.reverse).reverse, by rw [List.reverse_append]; rfl⟩

theorem urljoinL_getLast_slash (base : List Char) (r' : List Char) (c : Char)
    (h : (urljoinL base ('/' :: r')).getLast? = some c) :
    ('/' :: r').getLast? = some c := by
  unfold urljoinL at h
  rw [if_neg (by simp)] at h
  have hsc : hasScheme ('/' :: r') = false := by
    rw [hasScheme]
    simp [Char.isAlpha, Char.isUpper, Char.isLower]
  rw [if_neg (by simp [hsc])] at h
  cases hb : splitScheme base with
  | none => rw [hb] at h; exact h
  | some p =>
    obtain ⟨sch, rest⟩ := p
    rw [hb] at h
    dsimp only at h
    by_cases h2 : ('/' :: r').take 2 = ['/', '/']
    · rw [if_pos h2] at h
      rw [List.getLast?_append] at h
      simpa using h
    · rw [if_neg h2] at h
      rw [if_pos (by simp)] at h
      rw [List.getLast?_append] at h
      simpa using h

theorem strategy_map_trimmed (o : Option (List Char)) (r : String)
    (h : o.map (fun m => String.mk (rstripPunct m)) = some r)
    (c : Char) (hc : r.data.getLast? = some c) : punct c = false := by
  rcases Option.map_eq_some'.mp h with ⟨m, _, rfl⟩
  exact rstrip_last m c hc

theorem relPathStrategy_trimmed (t cu : String) (r : String)
    (h : relPathStrategy t cu = some r) (c : Char) (hc : r.data.getLast? = some c) :
    punct c = false := by
  unfold relPathStrategy at h
  rcases Option.map_eq_some'.mp h with ⟨cap, hcap, rfl⟩
  obtain ⟨tcap, rfl⟩ := searchGroup_lit_head relPre (.plusG nonWS) '/' t.data cap hcap
  obtain ⟨r', hr'⟩ := rstrip_cons_head '/' tcap (by decide)
  have hc2 : (urljoinL cu.data (rstripPunct ('/' :: tcap))).getLast? = some c := hc
  rw [hr'] at hc2
  have hlast := urljoinL_getLast_slash cu.data r' c hc2
  rw [← hr'] at hlast
  exact rstrip_last _ c hlast

theorem extractFromText_cases (t cu : String) :
    extractFromText t cu =
      match postToStrategy t with
      | some u => some u
      | none =>
        match submitUrlStrategy t with
        | some u => some u
        | none =>
          match barePostStrategy t with
          | some u => some u
          | none =>
            match submitScanStrategy t with
            | some u => some u
            | none =>
              match relPathStrategy t cu with
              | some u => some u
              | none => none := by
  unfold extractFromText postToStrategy submitUrlStrategy barePostStrategy
    submitScanStrategy relPathStrategy
  simp only [patterns, tryPatterns]
  cases h1 : searchGroup p1pre urlGrp t.data <;>
    cases h2 : searchGroup p2pre p2grp t.data <;>
      cases h3 : searchGroup p3pre urlGrp t.data <;>
        cases h4 : firstSubmitUrl (findAll findallRE t.data) <;>
          cases h5 : searchGroup relPre relGrp t.data <;>
            simp

theorem extract_hint_eq (t : String) (a : Analysis) (cu : String) :
    extract_submit_url t a cu =
      match hintStrategy a cu with
      | some u => some u
      | none => extractFromText t cu := by
  obtain ⟨tt, su⟩ := a
  cases su with
  | none => rfl
  | some su =>
    by_cases hsu : su = ""
    · subst hsu
      simp [extract_submit_url, hintStrategy]
    · by_cases hpre : listStartsWith "http".data su.data <;>
        simp [extract_submit_url, hintStrategy, hsu, hpre]

theorem extract_eq_resolvePriority (t : String) (a : Analysis) (cu : String) :
    extract_submit_url t a cu = resolvePriority t a cu := by
  rw [extract_hint_eq]
  unfold resolvePriority
  cases hh : hintStrategy a cu with
  | none => exact extractFromText_cases t cu
  | some u => rfl

theorem resolvePriority_none_iff (t : String) (a : Analysis) (cu : String) :
    resolvePriority t a cu = none ↔
      hintStrategy a cu = none ∧ postToStrategy t = none ∧ submitUrlStrategy t = none ∧
      barePostStrategy t = none ∧ submitScanStrategy t = none ∧
      relPathStrategy t cu = none := by
  unfold resolvePriority
  cases h0 : hintStrategy a cu <;>
    cases h1 : postToStrategy t <;>
      cases h2 : submitUrlStrategy t <;>
        cases h3 : barePostStrategy t <;>
          cases h4 : submitScanStrategy t <;>
            cases h5 : relPathStrategy t cu <;> simp

theorem listStartsWith_drop (a b s : List Char)
    (h : listStartsWith (a ++ b) s = true) : listStartsWith a s = true := by
  induction a generalizing s with
  | nil => rfl
  | cons x xs ih =>
    cases s with
    | nil => rw [List.cons_append, listStartsWith] at h; exact h
    | cons y ys =>
      rw [List.cons_append, listStartsWith] at h
      rw [listStartsWith]
      by_cases hxy : x = y
      · rw [if_pos hxy] at h ⊢
        exact ih ys h
      · rw [if_neg hxy] at h
        simp at h

/-! Claim theorems. -/

/-- C2: the resolver evaluates its strategies in the fixed priority order
(analysis hint, POST-to pattern, submit-URL-containing-submit pattern, bare
POST pattern, first absolute URL containing submit, relative-path
instruction), returning the first match, and returning absent exactly when no
strategy matches; in particular, on text containing a relative /submit-abc
instruction together with an analysis hint, the hint wins. -/
theorem extract_submit_url_priority_order :
    (∀ (t : String) (a : Analysis) (cu : String),
        extract_submit_url t a cu = resolvePriority t a cu) ∧
    (∀ (t : String) (a : Analysis) (cu : String),
        (extract_submit_url t a cu = none ↔
          hintStrategy a cu = none ∧ postToStrategy t = none ∧
          submitUrlStrategy t = none ∧ barePostStrategy t = none ∧
          submitScanStrategy t = none ∧ relPathStrategy t cu = none)) ∧
    extract_submit_url "Please submit your answer to /submit-abc"
        ⟨none, some "https://hint.example/submit"⟩ "https://host/q1" =
      some "https://hint.example/submit" ∧
    relPathStrategy "Please submit your answer to /submit-abc" "https://host/q1" =
      some "https://host/submit-abc" :=
  ⟨extract_eq_resolvePriority,
   fun t a cu => by
     rw [extract_eq_resolvePriority]
     exact resolvePriority_none_iff t a cu,
   by decide, by decide⟩

/-- C3 counterexample: the hint "httpserver/submit" is not an absolute URL,
so by the claim it would be resolved against the current URL, yet
extract_submit_url returns it verbatim because it starts with "http". -/
theorem extract_hint_verbatim_cex :
    isAbsoluteUrl "httpserver/submit" = false ∧
    extract_submit_url "irrelevant" ⟨none, some "httpserver/submit"⟩ "https://host/q1" =
      some "httpserver/submit" ∧
    urljoin "https://host/q1" "httpserver/submit" = "https://host/httpserver/submit" ∧
    ("httpserver/submit" : String) ≠ "https://host/httpserver/submit" := by decide

/-- C3 (amended): a truthy hint is used verbatim exactly when it starts with
the four characters http — which covers every absolute http(s) URL — and is
otherwise resolved as a relative reference against the current quiz URL. -/
theorem extract_hint_resolution (t : String) (a : Analysis) (cu su : String)
    (h : a.submit_url = some su) (hne : su ≠ "") :
    (listStartsWith "http".data su.data = true → extract_submit_url t a cu = some su) ∧
    (listStartsWith "http".data su.data = false →
        extract_submit_url t a cu = some (urljoin cu su)) ∧
    (isAbsoluteUrl su = true → extract_submit_url t a cu = some su) := by
  obtain ⟨tt, su'⟩ := a
  have hsu' : su' = some su := h
  subst hsu'
  refine ⟨fun hpre => ?_, fun hpre => ?_, fun habs => ?_⟩
  · simp [extract_submit_url, hne, hpre]
  · simp [extract_submit_url, hne, hpre]
  · have hpre : listStartsWith "http".data su.data = true := by
      have habs' : listStartsWith "http://".data su.data = true ∨
          listStartsWith "https://".data su.data = true := by
        simpa [isAbsoluteUrl] using habs
      rcases habs' with h2 | h2
      · have e : ("http://".data : List Char) = "http".data ++ "://".data := by decide
        rw [e] at h2
        exact listStartsWith_drop _ _ _ h2
      · have e : ("https://".data : List Char) = "http".data ++ "s://".data := by decide
        rw [e] at h2
        exact listStartsWith_drop _ _ _ h2
    simp [extract_submit_url, hne, hpre]

/-- Witness for C3 (amended): the spec's own example, hint /next against
current URL https://host/q1. -/
theorem extract_hint_resolution_witness :
    extract_submit_url "q" ⟨none, some "/next"⟩ "https://host/q1" =
      some "https://host/next" := by
  have h := (extract_hint_resolution "q" ⟨none, some "/next"⟩ "https://host/q1" "/next"
    rfl (by decide)).2.1 (by decide)
  exact h.trans (by decide)

/-- C4: when the analysis carries no hint and the text yields no discoverable
submission URL, solve_single_quiz returns the graceful absent result (ok
none), not an error. -/
theorem solve_single_quiz_graceful_absent (text : String) (a : Analysis) (url : String)
    (reply gen : Except String String) (net : String → Answer → Option HResponse)
    (hhint : a.submit_url = none) (htext : extractFromText text url = none) :
    solve_single_quiz (.ok text) (fun _ => .ok a) reply gen net url = Except.ok none := by
  have hext : extract_submit_url text a url = none := by
    rw [extract_hint_eq, show hintStrategy a url = none from by simp [hintStrategy, hhint]]
    exact htext
  simp [solve_single_quiz, hext]

/-- Witness for C4: a plain question with neither hint nor any URL-like text
ends the chain gracefully. -/
theorem solve_single_quiz_graceful_absent_witness :
    solve_single_quiz (.ok "What is 2 plus 2?")
        (fun _ => .ok ⟨some "data_analysis", none⟩) (.ok "4") (.ok "answer = 4")
        (fun _ _ => none) "https://host/q1" = Except.ok none :=
  solve_single_quiz_graceful_absent "What is 2 plus 2?" ⟨some "data_analysis", none⟩
    "https://host/q1" (.ok "4") (.ok "answer = 4") (fun _ _ => none) rfl (by decide)

/-- C5: on a 2xx submission response the next URL is forwarded regardless of
the correctness flag, both by submit_answer directly and through
solve_single_quiz. -/
theorem submit_answer_forwards_next_url :
    (∀ (st : Nat) (b : SubmissionBody), 200 ≤ st → st < 300 →
        submit_answer (some ⟨st, some b⟩) = b.url) ∧
    submit_answer (some ⟨200, some ⟨some false, some "try again", some "https://host/q2"⟩⟩) =
      some "https://host/q2" ∧
    solve_single_quiz (.ok "POST your answer to https://host/submit-here")
        (fun _ => .ok ⟨none, none⟩) (.ok "7") (.ok "code")
        (fun _ _ => some ⟨200, some ⟨some false, some "try again", some "https://host/q2"⟩⟩)
        "https://host/q1" = Except.ok (some "https://host/q2") := by
  refine ⟨fun st b h1 h2 => ?_, by decide, by rfl⟩
  unfold submit_answer
  dsimp only
  rw [if_pos ⟨h1, h2⟩]

/-- Witness for C5: a 204 response with correct false still forwards its next
URL. -/
theorem submit_answer_forwards_next_url_witness :
    submit_answer (some ⟨204, some ⟨some false, none, some "https://host/q2"⟩⟩) =
      some "https://host/q2" :=
  submit_answer_forwards_next_url.1 204 ⟨some false, none, some "https://host/q2"⟩
    (by decide) (by decide)

/-- C6: a network error or a non-2xx status makes submit_answer return absent
rather than raising, so the chain ends cleanly. -/
theorem submit_answer_failure_absent :
    (∀ r : HResponse, ¬(200 ≤ r.status ∧ r.status < 300) →
        submit_answer (some r) = none) ∧
    submit_answer none = none := by
  refine ⟨fun r h => ?_, rfl⟩
  unfold submit_answer
  dsimp only
  rw [if_neg h]

/-- Witness for C6: a 404 response yields absent even though its body parses
and carries a next URL. -/
theorem submit_answer_failure_absent_witness :
    submit_answer (some ⟨404, some ⟨some true, some "r", some "https://host/q9"⟩⟩) = none :=
  submit_answer_failure_absent.1 ⟨404, some ⟨some true, some "r", some "https://host/q9"⟩⟩
    (by decide)

/-- C7: when the primary direct call fails the fallback is invoked; the
generated code is never executed (the result does not depend on its content)
and the sentinel answer is returned; an error is raised exactly when both the
primary call and the fallback oracle call fail. -/
theorem solve_question_fallback :
    (∀ (a : Analysis) (e c : String),
        solve_question a (.error e) (.ok c) =
          .ok (Answer.str "Unable to solve automatically")) ∧
    (∀ (a : Analysis) (e c1 c2 : String),
        solve_question a (.error e) (.ok c1) = solve_question a (.error e) (.ok c2)) ∧
    (∀ (a : Analysis) (e e2 : String),
        solve_question a (.error e) (.error e2) = .error e2) ∧
    (∀ (a : Analysis) (d : Except String Answer) (g : Except String String),
        isErr (solve_question a d g) = (isErr d && isErr g)) := by
  refine ⟨fun a e c => rfl, fun a e c1 c2 => rfl, fun a e e2 => rfl, fun a d g => ?_⟩
  cases d <;> cases g <;> rfl

/-- C8: coercion of the oracle reply tries int first, then float, then falls
back to the raw string; the spec's three examples compute as stated. -/
theorem coerceAnswer_order :
    coerceAnswer "42" = .int 42 ∧
    coerceAnswer "3.14" = .float (.finite (157 / 50)) ∧
    coerceAnswer "Paris" = .str "Paris" ∧
    (∀ (s : String) (z : Int), intParse s.data = some z → coerceAnswer s = .int z) ∧
    (∀ (s : String) (v : FloatVal), intParse s.data = none → floatParse s.data = some v →
        coerceAnswer s = .float v) ∧
    (∀ s : String, intParse s.data = none → floatParse s.data = none →
        coerceAnswer s = .str s) := by
  refine ⟨by decide, ?_, by decide, fun s z h => ?_, fun s v h1 h2 => ?_,
    fun s h1 h2 => ?_⟩
  · have h1 : intParse "3.14".data = none := by decide
    have hp : floatParse "3.14".data = some (.finite (decimalValue 3 14 2 0)) := rfl
    have hv : decimalValue 3 14 2 0 = 157 / 50 := by
      norm_num [decimalValue, tenPowN, tenPowZ]
    simp only [coerceAnswer, h1, hp, hv]
  · simp [coerceAnswer, h]
  · simp [coerceAnswer, h1, h2]
  · simp [coerceAnswer, h1, h2]

/-- Witness for C8: the parser hypotheses of the coercion order discharge on
the concrete reply "7". -/
theorem coerceAnswer_order_witness :
    intParse "7".data = some 7 ∧ coerceAnswer "7" = .int 7 :=
  ⟨by decide, coerceAnswer_order.2.2.2.1 "7" 7 (by decide)⟩

theorem time_remaining_some (T s now : ℚ) :
    time_remaining T (some s) now = T - (now - s) := rfl

theorem solve_chain_loop_guard (T s : ℚ) :
    ∀ (env : List (ℚ × QuizOutcome)) (now : ℚ) (u : String) (t : ℚ),
      t ∈ solve_chain_loop T s now env u → time_remaining T (some s) t > 10 := by
  intro env
  induction env with
  | nil =>
    intro now u t ht
    simp [solve_chain_loop] at ht
  | cons q rest ih =>
    intro now u t ht
    obtain ⟨lat, out⟩ := q
    rw [solve_chain_loop.eq_def] at ht
    dsimp only at ht
    by_cases hg : u ≠ "" ∧ time_remaining T (some s) now > 10
    · rw [if_pos hg] at ht
      rcases List.mem_cons.mp ht with heq | htail
      · subst heq; exact hg.2
      · cases out with
        | result ou =>
          cases ou with
          | some nu =>
            dsimp only at htail
            by_cases hnu : nu ≠ ""
            · rw [if_pos hnu] at htail
              exact ih (now + lat) nu t htail
            · rw [if_neg hnu] at htail
              simp at htail
          | none => simp at htail
        | exn => simp at htail
    · rw [if_neg hg] at ht
      simp at ht

theorem solve_chain_loop_lb (T s : ℚ) :
    ∀ (env : List (ℚ × QuizOutcome)) (now : ℚ) (u : String),
      (∀ p ∈ env, 0 ≤ p.1) → ∀ t ∈ solve_chain_loop T s now env u, now ≤ t := by
  intro env
  induction env with
  | nil =>
    intro now u _ t ht
    simp [solve_chain_loop] at ht
  | cons q rest ih =>
    intro now u hlat t ht
    obtain ⟨lat, out⟩ := q
    have hl0 : 0 ≤ lat := hlat (lat, out) (List.mem_cons_self _ _)
    have hrest : ∀ p ∈ rest, 0 ≤ p.1 := fun p hp => hlat p (List.mem_cons_of_mem _ hp)
    rw [solve_chain_loop.eq_def] at ht
    dsimp only at ht
    by_cases hg : u ≠ "" ∧ time_remaining T (some s) now > 10
    · rw [if_pos hg] at ht
      rcases List.mem_cons.mp ht with heq | htail
      · subst heq; exact le_refl _
      · cases out with
        | result ou =>
          cases ou with
          | some nu =>
            dsimp only at htail
            by_cases hnu : nu ≠ ""
            · rw [if_pos hnu] at htail
              have := ih (now + lat) nu hrest t htail
              linarith
            · rw [if_neg hnu] at htail
              simp at htail
          | none => simp at htail
        | exn => simp at htail
    · rw [if_neg hg] at ht
      simp at ht

theorem solve_chain_loop_sorted (T s : ℚ) :
    ∀ (env : List (ℚ × QuizOutcome)) (now : ℚ) (u : String),
      (∀ p ∈ env, 0 ≤ p.1) →
      (solve_chain_loop T s now env u).Chain' (· ≤ ·) := by
  intro env
  induction env with
  | nil =>
    intro now u _
    simp [solve_chain_loop]
  | cons q rest ih =>
    intro now u hlat
    obtain ⟨lat, out⟩ := q
    have hl0 : 0 ≤ lat := hlat (lat, out) (List.mem_cons_self _ _)
    have hrest : ∀ p ∈ rest, 0 ≤ p.1 := fun p hp => hlat p (List.mem_cons_of_mem _ hp)
    rw [solve_chain_loop.eq_def]
    dsimp only
    by_cases hg : u ≠ "" ∧ time_remaining T (some s) now > 10
    · rw [if_pos hg]
      rw [List.chain'_cons']
      constructor
      · intro y hy
        have hym := List.mem_of_mem_head? hy
        cases out with
        | result ou =>
          cases ou with
          | some nu =>
            dsimp only at hym
            by_cases hnu : nu ≠ ""
            · rw [if_pos hnu] at hym
              have := solve_chain_loop_lb T s rest (now + lat) nu hrest y hym
              linarith
            · rw [if_neg hnu] at hym
              simp at hym
          | none => simp at hym
        | exn => simp at hym
      · cases out with
        | result ou =>
          cases ou with
          | some nu =>
            dsimp only
            by_cases hnu : nu ≠ ""
            · rw [if_pos hnu]
              exact ih (now + lat) nu hrest
            · rw [if_neg hnu]
              exact List.chain'_nil
          | none => exact List.chain'_nil
        | exn => exact List.chain'_nil
    · rw [if_neg hg]
      exact List.chain'_nil

/-- C1: for every total timeout T and every latency sequence, each iteration
of the chain loop begins strictly before elapsed time reaches T minus the
ten-second margin (so no iteration begins once elapsed time exceeds it), the
guard it tests is the remainder recomputed from the immutable start
timestamp, and that remainder is monotonically non-increasing over the run. -/
theorem solve_chain_time_budget (T s : ℚ) (env : List (ℚ × QuizOutcome)) (u : String)
    (hlat : ∀ p ∈ env, 0 ≤ p.1) :
    (∀ t ∈ solve_chain T s env u, t - s < T - 10 ∧ time_remaining T (some s) t > 10) ∧
    (solve_chain T s env u).Chain'
      (fun a b => time_remaining T (some s) b ≤ time_remaining T (some s) a) := by
  constructor
  · intro t ht
    have h := solve_chain_loop_guard T s env s u t ht
    refine ⟨?_, h⟩
    rw [time_remaining_some] at h
    linarith
  · have hs := solve_chain_loop_sorted T s env s u hlat
    exact List.Chain'.imp
      (fun a b hab => by rw [time_remaining_some, time_remaining_some]; linarith) hs

/-- Witness for C1: a three-question run under the configured 180-second
budget begins its iterations at 0, 30 and 130 seconds, all inside the
margin. -/
theorem solve_chain_time_budget_witness :
    (130 : ℚ) ∈ solve_chain TIMEOUT_SECONDS 0
        [((30 : ℚ), QuizOutcome.result (some "u2")),
         ((100 : ℚ), QuizOutcome.result (some "u3")),
         ((60 : ℚ), QuizOutcome.result none)] "u1" ∧
    (130 : ℚ) - 0 < TIMEOUT_SECONDS - 10 ∧
    time_remaining TIMEOUT_SECONDS (some 0) 130 > 10 := by
  have h1 : ("u1" : String) = "" ↔ False := iff_false_intro (by decide)
  have h2 : ("u2" : String) = "" ↔ False := iff_false_intro (by decide)
  have h3 : ("u3" : String) = "" ↔ False := iff_false_intro (by decide)
  have heval : solve_chain TIMEOUT_SECONDS 0
      [((30 : ℚ), QuizOutcome.result (some "u2")),
       ((100 : ℚ), QuizOutcome.result (some "u3")),
       ((60 : ℚ), QuizOutcome.result none)] "u1" = [0, 30, 130] := by
    norm_num [solve_chain, solve_chain_loop, time_remaining, TIMEOUT_SECONDS, h1, h2, h3]
  have hlat : ∀ p ∈ [((30 : ℚ), QuizOutcome.result (some "u2")),
      ((100 : ℚ), QuizOutcome.result (some "u3")),
      ((60 : ℚ), QuizOutcome.result none)], 0 ≤ p.1 := by
    intro p hp
    simp only [List.mem_cons, List.not_mem_nil, or_false] at hp
    rcases hp with rfl | rfl | rfl <;> norm_num
  have hmem : (130 : ℚ) ∈ solve_chain TIMEOUT_SECONDS 0
      [((30 : ℚ), QuizOutcome.result (some "u2")),
       ((100 : ℚ), QuizOutcome.result (some "u3")),
       ((60 : ℚ), QuizOutcome.result none)] "u1" := by
    rw [heval]; simp
  exact ⟨hmem,
    (solve_chain_time_budget TIMEOUT_SECONDS 0 _ "u1" hlat).1 130 hmem⟩

/-- C9: every URL produced by a text-pattern strategy has its trailing
punctuation (period, comma, semicolon, colon) trimmed before it is returned,
as has the whole resolver result when no hint is used; and the POST-to
example returns the exact punctuation-trimmed URL. -/
theorem text_strategy_urls_trimmed :
    (∀ (t r : String), postToStrategy t = some r →
        ∀ c, r.data.getLast? = some c → punct c = false) ∧
    (∀ (t r : String), submitUrlStrategy t = some r →
        ∀ c, r.data.getLast? = some c → punct c = false) ∧
    (∀ (t r : String), barePostStrategy t = some r →
        ∀ c, r.data.getLast? = some c → punct c = false) ∧
    (∀ (t r : String), submitScanStrategy t = some r →
        ∀ c, r.data.getLast? = some c → punct c = false) ∧
    (∀ (t cu r : String), relPathStrategy t cu = some r →
        ∀ c, r.data.getLast? = some c → punct c = false) ∧
    (∀ (t : String) (a : Analysis) (cu r : String), a.submit_url = none →
        extract_submit_url t a cu = some r →
        ∀ c, r.data.getLast? = some c → punct c = false) ∧
    extract_submit_url "POST to https://x/submit." ⟨none, none⟩ "https://host/q1" =
      some "https://x/submit" := by
  refine ⟨fun t r h => strategy_map_trimmed _ r h,
          fun t r h => strategy_map_trimmed _ r h,
          fun t r h => strategy_map_trimmed _ r h,
          fun t r h => strategy_map_trimmed _ r h,
          fun t cu r h => relPathStrategy_trimmed t cu r h,
          fun t a cu r hhint hext => ?_, by decide⟩
  rw [extract_hint_eq, show hintStrategy a cu = none from by simp [hintStrategy, hhint],
      extractFromText_cases] at hext
  cases h1 : postToStrategy t with
  | some u =>
    rw [h1] at hext
    cases hext
    exact strategy_map_trimmed _ _ h1
  | none =>
    rw [h1] at hext
    cases h2 : submitUrlStrategy t with
    | some u =>
      rw [h2] at hext
      cases hext
      exact strategy_map_trimmed _ _ h2
    | none =>
      rw [h2] at hext
      cases h3 : barePostStrategy t with
      | some u =>
        rw [h3] at hext
        cases hext
        exact strategy_map_trimmed _ _ h3
      | none =>
        rw [h3] at hext
        cases h4 : submitScanStrategy t with
        | some u =>
          rw [h4] at hext
          cases hext
          exact strategy_map_trimmed _ _ h4
        | none =>
          rw [h4] at hext
          cases h5 : relPathStrategy t cu with
          | some u =>
            rw [h5] at hext
            cases hext
            exact relPathStrategy_trimmed t cu _ h5
          | none =>
            rw [h5] at hext
            cases hext

/-- Witness for C9: at the spec's POST-to example the first strategy fires
and the returned URL ends in the letter t, not punctuation. -/
theorem text_strategy_urls_trimmed_witness :
    postToStrategy "POST to https://x/submit." = some "https://x/submit" ∧
    ("https://x/submit" : String).data.getLast? = some 't' ∧
    punct 't' = false :=
  ⟨by decide, by decide,
   text_strategy_urls_trimmed.1 "POST to https://x/submit." "https://x/submit"
     (by decide) 't' (by decide)⟩

/-- C10: a present-but-falsy hint (the empty string) is treated exactly like
a missing hint: the resolver falls through to the text strategies. -/
theorem falsy_hint_falls_through (t : String) (a : Analysis) (cu : String)
    (h : a.submit_url = some "") :
    extract_submit_url t a cu = extractFromText t cu ∧
    extract_submit_url t a cu = extract_submit_url t ⟨a.task_type, none⟩ cu := by
  obtain ⟨tt, su⟩ := a
  have hsu : su = some "" := h
  subst hsu
  exact ⟨by simp [extract_submit_url], by simp [extract_submit_url]⟩

/-- Witness for C10: with an empty-string hint the resolver still finds the
URL in the text. -/
theorem falsy_hint_falls_through_witness :
    extract_submit_url "POST to https://x/submit." ⟨some "other", some ""⟩ "https://host/q1" =
      extract_submit_url "POST to https://x/submit." ⟨some "other", none⟩ "https://host/q1" :=
  (falsy_hint_falls_through "POST to https://x/submit." ⟨some "other", some ""⟩
    "https://host/q1" rfl).2

end QuizChain
